import Mathlib

/-!
Verification of the lambda-calculus equality-saturation benchmark
(`src/lambda.rs`): the per-class analysis (free variables, folded
constants), the rewrite-rule table, and the capture-avoiding applier,
shallowly embedded in Lean.  Equivalence-class references (`egg::Id`)
are modelled as natural numbers; per-class analysis data is read through
explicit lookup functions standing for `egraph[i].data`.
-/

namespace LambdaBench

/-- A class reference (`egg::Id`). -/
abbrev Id := Nat

/-- The term language, mirroring the `define_language!` block:
`Bool(bool)`, `Num(i32)`, `"var" = Var(Id)`, `"+" = Add([Id; 2])`,
`"=" = Eq([Id; 2])`, `"app" = App([Id; 2])`, `"lam" = Lambda([Id; 2])` (constructor `Lam` here, since a
constructor may not shadow its own type),
`"let" = Let([Id; 3])`, `"fix" = Fix([Id; 2])`, `"if" = If([Id; 3])`,
`Symbol(Symbol)`.  `Num` carries a mathematical integer; the 32-bit
behaviour of Rust `i32` addition is made explicit in `wrap32` below. -/
inductive Lambda where
  | Bool (b : Bool)
  | Num (n : Int)
  | Var (v : Id)
  | Add (a b : Id)
  | Eq (a b : Id)
  | App (a b : Id)
  | Lam (v body : Id)
  | Let (v a b : Id)
  | Fix (v body : Id)
  | If (c t e : Id)
  | Symbol (s : String)
deriving DecidableEq

/-- `Lambda::num`: the integer payload when the node is a `Num`. -/
def Lambda.num : Lambda → Option Int
  | .Num n => some n
  | _ => none

/-- The child class references of a node, in field order (the order
`for_each` visits them). -/
def Lambda.children : Lambda → List Id
  | .Bool _ => []
  | .Num _ => []
  | .Symbol _ => []
  | .Var v => [v]
  | .Add a b => [a, b]
  | .Eq a b => [a, b]
  | .App a b => [a, b]
  | .Lam v body => [v, body]
  | .Fix v body => [v, body]
  | .Let v a b => [v, a, b]
  | .If c t e => [c, t, e]

/-- Per-class analysis data: the free-variable set and the optional
folded constant. -/
structure Data where
  free : Finset Id
  constant : Option Lambda
deriving DecidableEq

/-- Two's-complement wrap of a mathematical integer into the `i32`
range, the behaviour of Rust release-mode `+` on `i32`. -/
def wrap32 (n : Int) : Int := (n + 2 ^ 31) % 2 ^ 32 - 2 ^ 31

/-- Rust `i32` addition. -/
def i32Add (a b : Int) : Int := wrap32 (a + b)

/-- The constant evaluator `eval`.  `x i` stands for
`egraph[i].data.constant`. -/
def eval (x : Id → Option Lambda) : Lambda → Option Lambda
  | .Num n => some (.Num n)
  | .Bool b => some (.Bool b)
  | .Add a b =>
    match (x a).bind Lambda.num, (x b).bind Lambda.num with
    | some na, some nb => some (.Num (i32Add na nb))
    | _, _ => none
  | .Eq a b =>
    match x a, x b with
    | some ca, some cb => some (.Bool (decide (ca = cb)))
    | _, _ => none
  | _ => none

/-- `LambdaAnalysis::merge`: combine `from_` into `to`, returning the
updated data together with the reported `Option<Ordering>`.  The free
set is filtered by `retain` (intersection); `did_change` compares the
set's size before and after. -/
def merge (to_ from_ : Data) : Data × Option Ordering :=
  let before_len := to_.free.card
  let newFree := to_.free ∩ from_.free
  let did_change := before_len != newFree.card
  if to_.constant.isNone && from_.constant.isSome then
    ({ free := newFree, constant := from_.constant }, none)
  else if did_change then
    ({ free := newFree, constant := to_.constant }, none)
  else
    ({ free := newFree, constant := to_.constant }, some Ordering.gt)

/-- `LambdaAnalysis::make`: compute a fresh node's data.  `data i`
stands for `egraph[i].data`. -/
def make (data : Id → Data) (enode : Lambda) : Data :=
  let f := fun i => (data i).free
  let free :=
    match enode with
    | .Var v => {v}
    | .Let v a b => ((f b).erase v) ∪ f a
    | .Lam v a => (f a).erase v
    | .Fix v a => (f a).erase v
    | _ => enode.children.foldl (fun s c => s ∪ f c) ∅
  { free := free, constant := eval (fun i => (data i).constant) enode }

/-- Folding `merge` over a sequence of incoming class data, tracking
only the evolving `to` side. -/
def mergeSeq (to_ : Data) (l : List Data) : Data :=
  l.foldl (fun t f => (merge t f).1) to_

/-- A minimal view of the external graph engine's mutable state: the
interning table (node to class, in insertion order), the next unused
class reference, and the log of union requests issued so far. -/
structure EGraphState where
  memo : List (Lambda × Id)
  next : Id
  unions : List (Id × Id)
deriving DecidableEq

/-- Modelled from the spec: the external engine's
`insert(node) -> class-ref` of section 6, deduplicating structurally
identical nodes (the engine itself is out of scope of the source). -/
def addNode (s : EGraphState) (n : Lambda) : Id × EGraphState :=
  match s.memo.find? (fun p => decide (p.1 = n)) with
  | some p => (p.2, s)
  | none =>
    (s.next,
     { memo := s.memo ++ [(n, s.next)], next := s.next + 1, unions := s.unions })

/-- Modelled from the spec: the external engine's `union(ref, ref)` of
section 6; we record the requested union. -/
def unionClasses (s : EGraphState) (a b : Id) : EGraphState :=
  { s with unions := s.unions ++ [(a, b)] }

/-- `LambdaAnalysis::modify`: the post-merge correction hook.
`constOf i` stands for `egraph[i].data.constant`. -/
def modify (constOf : Id → Option Lambda) (s : EGraphState) (i : Id) :
    EGraphState :=
  match constOf i with
  | some c =>
    let r := addNode s c
    unionClasses r.2 i r.1
  | none => s

/-- A rewrite pattern (`Pattern<Lambda>`): a term skeleton whose leaves
may be pattern variables such as `?e`. -/
inductive Pat where
  | pvar (v : String)
  | Bool (b : Bool)
  | Num (n : Int)
  | Var (p : Pat)
  | Add (a b : Pat)
  | Eq (a b : Pat)
  | App (a b : Pat)
  | Lam (v body : Pat)
  | Let (v a b : Pat)
  | Fix (v body : Pat)
  | If (c t e : Pat)
  | Symbol (s : String)
deriving DecidableEq

/-- A ground instantiation of a pattern: the same skeleton with every
pattern variable replaced by the class reference it was bound to. -/
inductive GTerm where
  | cls (i : Id)
  | Bool (b : Bool)
  | Num (n : Int)
  | Var (p : GTerm)
  | Add (a b : GTerm)
  | Eq (a b : GTerm)
  | App (a b : GTerm)
  | Lam (v body : GTerm)
  | Let (v a b : GTerm)
  | Fix (v body : GTerm)
  | If (c t e : GTerm)
  | Symbol (s : String)
deriving DecidableEq

/-- Modelled from the spec: the external engine's pattern instantiation
(section 6) — replace each pattern variable by its binding from the
substitution, failing when a variable is unbound. -/
def instPat (σ : String → Option Id) : Pat → Option GTerm
  | .pvar v => (σ v).map GTerm.cls
  | .Bool b => some (.Bool b)
  | .Num n => some (.Num n)
  | .Var p => (instPat σ p).map GTerm.Var
  | .Add a b =>
    match instPat σ a, instPat σ b with
    | some ga, some gb => some (.Add ga gb)
    | _, _ => none
  | .Eq a b =>
    match instPat σ a, instPat σ b with
    | some ga, some gb => some (.Eq ga gb)
    | _, _ => none
  | .App a b =>
    match instPat σ a, instPat σ b with
    | some ga, some gb => some (.App ga gb)
    | _, _ => none
  | .Lam v body =>
    match instPat σ v, instPat σ body with
    | some gv, some gb => some (.Lam gv gb)
    | _, _ => none
  | .Let v a b =>
    match instPat σ v, instPat σ a, instPat σ b with
    | some gv, some ga, some gb => some (.Let gv ga gb)
    | _, _, _ => none
  | .Fix v body =>
    match instPat σ v, instPat σ body with
    | some gv, some gb => some (.Fix gv gb)
    | _, _ => none
  | .If c t e =>
    match instPat σ c, instPat σ t, instPat σ e with
    | some gc, some gt_, some ge => some (.If gc gt_ ge)
    | _, _, _ => none
  | .Symbol s => some (.Symbol s)

/-- The side conditions used by the rule table. -/
inductive Cond where
  | isNotSameVar (v1 v2 : String)
  | isConst (v : String)
  | conditionEqual (p1 p2 : Pat)
deriving DecidableEq

/-- `is_not_same_var`: the two bound references resolve to different
canonical classes.  `find` stands for `egraph.find`. -/
def is_not_same_var (find : Id → Id) (σ : String → Option Id)
    (v1 v2 : String) : Bool :=
  match σ v1, σ v2 with
  | some a, some b => decide (find a ≠ find b)
  | _, _ => false

/-- `is_const`: the bound class's analysis data reports a constant. -/
def is_const (constOf : Id → Option Lambda) (σ : String → Option Id)
    (v : String) : Bool :=
  match σ v with
  | some a => (constOf a).isSome
  | _ => false

/-- Modelled from the spec: the engine's `ConditionEqual` fires only if
the two instantiated patterns are already known equal — both resolve to
classes with the same canonical representative in the current graph.
`classOf` is the engine's lookup from a ground term to its class. -/
def conditionEqualHolds (find : Id → Id) (classOf : GTerm → Option Id)
    (σ : String → Option Id) (p1 p2 : Pat) : Bool :=
  match (instPat σ p1).bind classOf, (instPat σ p2).bind classOf with
  | some a, some b => decide (find a = find b)
  | _, _ => false

/-- Evaluate a side condition against the current graph state. -/
def condHolds (find : Id → Id) (constOf : Id → Option Lambda)
    (classOf : GTerm → Option Id) (σ : String → Option Id) : Cond → Bool
  | .isNotSameVar v1 v2 => is_not_same_var find σ v1 v2
  | .isConst v => is_const constOf σ v
  | .conditionEqual p1 p2 => conditionEqualHolds find classOf σ p1 p2

/-- The fresh binder name minted by the capture-avoiding applier:
`format!("_{}", eclass)`. -/
def freshSymbolName (eclass : Id) : String := "_" ++ Nat.repr eclass

/-- The `CaptureAvoid` applier record. -/
structure CaptureAvoid where
  fresh : String
  v2 : String
  e : String
  if_not_free : Pat
  if_free : Pat
deriving DecidableEq

/-- `CaptureAvoid::apply_one`: branch on whether `?v2`'s class occurs
in the free set of `?e`'s class; in the capture case, add a fresh
symbol node named after the target class and bind `?fresh` to it before
instantiating `if_free`.  `freeOf i` stands for `egraph[i].data.free`
and `add` for `egraph.add`. -/
def CaptureAvoid.apply_one (ca : CaptureAvoid) (freeOf : Id → Finset Id)
    (add : Lambda → Id) (eclass : Id) (σ : String → Option Id) :
    Option GTerm :=
  match σ ca.e, σ ca.v2 with
  | some e, some v2 =>
    if v2 ∈ freeOf e then
      let sym := Lambda.Symbol (freshSymbolName eclass)
      let σ2 := fun v => if v = ca.fresh then some (add sym) else σ v
      instPat σ2 ca.if_free
    else
      instPat σ ca.if_not_free
  | _, _ => none

/-- A rule consequence: a fixed replacement pattern or the programmatic
capture-avoiding applier. -/
inductive RuleApplier where
  | pat (p : Pat)
  | captureAvoid (ca : CaptureAvoid)
deriving DecidableEq

/-- A named rewrite rule: left-hand pattern, consequence, and side
conditions. -/
structure Rewrite where
  name : String
  lhs : Pat
  applier : RuleApplier
  conds : List Cond
deriving DecidableEq

/-- Shorthand for a pattern variable. -/
def pv (s : String) : Pat := Pat.pvar s

/-- The `CaptureAvoid` record installed by the `let-lam-diff` rule. -/
def letLamDiffCA : CaptureAvoid :=
  { fresh := "?fresh", v2 := "?v2", e := "?e",
    if_not_free := Pat.Lam (pv "?v2") (Pat.Let (pv "?v1") (pv "?e") (pv "?body")),
    if_free := Pat.Lam (pv "?fresh")
      (Pat.Let (pv "?v1") (pv "?e")
        (Pat.Let (pv "?v2") (Pat.Var (pv "?fresh")) (pv "?body"))) }

/-- The rule table `rules()`, transcribed rule by rule. -/
def rules : List Rewrite :=
  [{ name := "if-true",
     lhs := Pat.If (Pat.Bool true) (pv "?then") (pv "?else"),
     applier := RuleApplier.pat (pv "?then"), conds := [] },
   { name := "if-false",
     lhs := Pat.If (Pat.Bool false) (pv "?then") (pv "?else"),
     applier := RuleApplier.pat (pv "?else"), conds := [] },
   { name := "if-elim",
     lhs := Pat.If (Pat.Eq (Pat.Var (pv "?x")) (pv "?e")) (pv "?then") (pv "?else"),
     applier := RuleApplier.pat (pv "?else"),
     conds := [Cond.conditionEqual
       (Pat.Let (pv "?x") (pv "?e") (pv "?then"))
       (Pat.Let (pv "?x") (pv "?e") (pv "?else"))] },
   { name := "add-comm",
     lhs := Pat.Add (pv "?a") (pv "?b"),
     applier := RuleApplier.pat (Pat.Add (pv "?b") (pv "?a")), conds := [] },
   { name := "add-assoc",
     lhs := Pat.Add (Pat.Add (pv "?a") (pv "?b")) (pv "?c"),
     applier := RuleApplier.pat (Pat.Add (pv "?a") (Pat.Add (pv "?b") (pv "?c"))),
     conds := [] },
   { name := "eq-comm",
     lhs := Pat.Eq (pv "?a") (pv "?b"),
     applier := RuleApplier.pat (Pat.Eq (pv "?b") (pv "?a")), conds := [] },
   { name := "fix",
     lhs := Pat.Fix (pv "?v") (pv "?e"),
     applier := RuleApplier.pat
       (Pat.Let (pv "?v") (Pat.Fix (pv "?v") (pv "?e")) (pv "?e")),
     conds := [] },
   { name := "beta",
     lhs := Pat.App (Pat.Lam (pv "?v") (pv "?body")) (pv "?e"),
     applier := RuleApplier.pat (Pat.Let (pv "?v") (pv "?e") (pv "?body")),
     conds := [] },
   { name := "let-app",
     lhs := Pat.Let (pv "?v") (pv "?e") (Pat.App (pv "?a") (pv "?b")),
     applier := RuleApplier.pat
       (Pat.App (Pat.Let (pv "?v") (pv "?e") (pv "?a"))
         (Pat.Let (pv "?v") (pv "?e") (pv "?b"))),
     conds := [] },
   { name := "let-add",
     lhs := Pat.Let (pv "?v") (pv "?e") (Pat.Add (pv "?a") (pv "?b")),
     applier := RuleApplier.pat
       (Pat.Add (Pat.Let (pv "?v") (pv "?e") (pv "?a"))
         (Pat.Let (pv "?v") (pv "?e") (pv "?b"))),
     conds := [] },
   { name := "let-eq",
     lhs := Pat.Let (pv "?v") (pv "?e") (Pat.Eq (pv "?a") (pv "?b")),
     applier := RuleApplier.pat
       (Pat.Eq (Pat.Let (pv "?v") (pv "?e") (pv "?a"))
         (Pat.Let (pv "?v") (pv "?e") (pv "?b"))),
     conds := [] },
   { name := "let-const",
     lhs := Pat.Let (pv "?v") (pv "?e") (pv "?c"),
     applier := RuleApplier.pat (pv "?c"),
     conds := [Cond.isConst "?c"] },
   { name := "let-if",
     lhs := Pat.Let (pv "?v") (pv "?e") (Pat.If (pv "?cond") (pv "?then") (pv "?else")),
     applier := RuleApplier.pat
       (Pat.If (Pat.Let (pv "?v") (pv "?e") (pv "?cond"))
         (Pat.Let (pv "?v") (pv "?e") (pv "?then"))
         (Pat.Let (pv "?v") (pv "?e") (pv "?else"))),
     conds := [] },
   { name := "let-var-same",
     lhs := Pat.Let (pv "?v1") (pv "?e") (Pat.Var (pv "?v1")),
     applier := RuleApplier.pat (pv "?e"), conds := [] },
   { name := "let-var-diff",
     lhs := Pat.Let (pv "?v1") (pv "?e") (Pat.Var (pv "?v2")),
     applier := RuleApplier.pat (Pat.Var (pv "?v2")),
     conds := [Cond.isNotSameVar "?v1" "?v2"] },
   { name := "let-lam-same",
     lhs := Pat.Let (pv "?v1") (pv "?e") (Pat.Lam (pv "?v1") (pv "?body")),
     applier := RuleApplier.pat (Pat.Lam (pv "?v1") (pv "?body")),
     conds := [] },
   { name := "let-lam-diff",
     lhs := Pat.Let (pv "?v1") (pv "?e") (Pat.Lam (pv "?v2") (pv "?body")),
     applier := RuleApplier.captureAvoid letLamDiffCA,
     conds := [Cond.isNotSameVar "?v1" "?v2"] }]

/-- Source-level expression trees, the shape the benchmark seed strings
parse into (binders and variables written as symbol names). -/
inductive Tree where
  | Bool (b : Bool)
  | Num (n : Int)
  | Var (s : String)
  | Add (a b : Tree)
  | Eq (a b : Tree)
  | App (a b : Tree)
  | Lam (v : String) (body : Tree)
  | Let (v : String) (bound body : Tree)
  | Fix (v : String) (body : Tree)
  | If (c t e : Tree)
deriving DecidableEq

/-- Every symbol (binder name or variable occurrence) of a source
tree. -/
def Tree.symbols : Tree → List String
  | .Bool _ => []
  | .Num _ => []
  | .Var s => [s]
  | .Add a b => a.symbols ++ b.symbols
  | .Eq a b => a.symbols ++ b.symbols
  | .App a b => a.symbols ++ b.symbols
  | .Lam v body => v :: body.symbols
  | .Let v a b => v :: (a.symbols ++ b.symbols)
  | .Fix v body => v :: body.symbols
  | .If c t e => c.symbols ++ t.symbols ++ e.symbols

/-- The `lambda1` benchmark seed expression of `lambda_bench1`. -/
def lambda_bench1_expr : Tree :=
  Tree.Let "compose"
    (Tree.Lam "f" (Tree.Lam "g" (Tree.Lam "x"
      (Tree.App (Tree.Var "f") (Tree.App (Tree.Var "g") (Tree.Var "x"))))))
    (Tree.Let "repeat"
      (Tree.Fix "repeat" (Tree.Lam "fun" (Tree.Lam "n"
        (Tree.If (Tree.Eq (Tree.Var "n") (Tree.Num 0))
          (Tree.Lam "i" (Tree.Var "i"))
          (Tree.App (Tree.App (Tree.Var "compose") (Tree.Var "fun"))
            (Tree.App (Tree.App (Tree.Var "repeat") (Tree.Var "fun"))
              (Tree.Add (Tree.Var "n") (Tree.Num (-1)))))))))
      (Tree.Let "add1" (Tree.Lam "y" (Tree.Add (Tree.Var "y") (Tree.Num 1)))
        (Tree.App (Tree.App (Tree.Var "repeat") (Tree.Var "add1"))
          (Tree.Num 2))))

/-- The `lambda2` benchmark seed expression of `lambda_bench2`. -/
def lambda_bench2_expr : Tree :=
  Tree.Let "fib"
    (Tree.Fix "fib" (Tree.Lam "n"
      (Tree.If (Tree.Eq (Tree.Var "n") (Tree.Num 0)) (Tree.Num 0)
        (Tree.If (Tree.Eq (Tree.Var "n") (Tree.Num 1)) (Tree.Num 1)
          (Tree.Add
            (Tree.App (Tree.Var "fib") (Tree.Add (Tree.Var "n") (Tree.Num (-1))))
            (Tree.App (Tree.Var "fib") (Tree.Add (Tree.Var "n") (Tree.Num (-2)))))))))
    (Tree.App (Tree.Var "fib") (Tree.Num 4))

/-- All program-source symbols of the two benchmark seeds. -/
def benchSymbols : List String :=
  lambda_bench1_expr.symbols ++ lambda_bench2_expr.symbols

/-! Theorems. -/

/-- Helper: a constant already present on the `to` side survives one
merge unchanged. -/
theorem merge_constant_of_some (t f : Data) (c : Lambda)
    (h : t.constant = some c) : (merge t f).1.constant = some c := by
  unfold merge
  split
  · rename_i hcond
    rw [h] at hcond
    simp at hcond
  · dsimp only
    split <;> simpa using h

/-- C1: merging two class Data values (`Combine(to, from)`) makes the
free set of `to` exactly the intersection of the two prior free sets,
not their union. -/
theorem merge_free_is_intersection (to_ from_ : Data) :
    (merge to_ from_).1.free = to_.free ∩ from_.free := by
  unfold merge
  split
  · rfl
  · dsimp only
    split <;> rfl

/-- C5: a class constant, once set, is never replaced by a different
value: one merge adopts `from.constant` only when `to.constant` is
absent and otherwise leaves `to.constant` untouched, and across every
sequence of merges the first-known constant wins. -/
theorem constant_first_known_wins :
    (∀ to_ from_ c, to_.constant = some c →
      (merge to_ from_).1.constant = some c) ∧
    (∀ to_ from_ c, to_.constant = none → from_.constant = some c →
      (merge to_ from_).1.constant = some c) ∧
    (∀ to_ l c, to_.constant = some c →
      (mergeSeq to_ l).constant = some c) := by
  refine ⟨fun t f c h => merge_constant_of_some t f c h, ?_, ?_⟩
  · intro t f c h1 h2
    unfold merge
    split
    · simp [h2]
    · rename_i hcond
      rw [h1, h2] at hcond
      simp at hcond
  · intro t l
    induction l generalizing t with
    | nil => exact fun c h => h
    | cons f rest ih =>
      intro c h
      exact ih (merge t f).1 c (merge_constant_of_some t f c h)

/-- Witness for C5 at concrete data. -/
theorem constant_first_known_wins_witness :
    (mergeSeq { free := ∅, constant := some (Lambda.Num 7) }
      [{ free := {1}, constant := some (Lambda.Num 9) },
       { free := ∅, constant := none }]).constant = some (Lambda.Num 7) :=
  constant_first_known_wins.2.2 _ _ _ rfl

/-- C9: `merge` reports `Some(Ordering::Greater)` exactly when the size
of `to.free` did not shrink and no constant was adopted; in every other
case it returns `None`, and it never returns `Less` or `Equal` — even
when `from` differs from the merged result (a strict-superset free set,
or a differing present constant, still yields `Greater`). -/
theorem merge_report_gt_iff :
    (∀ to_ from_ : Data,
      ((merge to_ from_).2 = some Ordering.gt ↔
        to_.free.card = (to_.free ∩ from_.free).card ∧
          ¬(to_.constant = none ∧ from_.constant ≠ none)) ∧
      ((merge to_ from_).2 = none ∨ (merge to_ from_).2 = some Ordering.gt) ∧
      ((merge to_ from_).2 = none ↔
        ¬(to_.free.card = (to_.free ∩ from_.free).card ∧
          ¬(to_.constant = none ∧ from_.constant ≠ none)))) ∧
    ((merge { free := {1}, constant := none }
        { free := {1, 2}, constant := none }).2 = some Ordering.gt ∧
      ({ free := {1, 2}, constant := none } : Data) ≠
        (merge { free := {1}, constant := none }
          { free := {1, 2}, constant := none }).1) ∧
    ((merge { free := {1}, constant := some (Lambda.Num 0) }
        { free := {1}, constant := some (Lambda.Num 1) }).2 = some Ordering.gt ∧
      ({ free := {1}, constant := some (Lambda.Num 1) } : Data).constant ≠
        (merge { free := {1}, constant := some (Lambda.Num 0) }
          { free := {1}, constant := some (Lambda.Num 1) }).1.constant) := by
  refine ⟨?_, by refine ⟨by decide, by decide⟩, by refine ⟨by decide, by decide⟩⟩
  intro t f
  rcases hc : t.constant with _ | c <;> rcases hf : f.constant with _ | d <;>
    by_cases h2 : t.free.card = (t.free ∩ f.free).card <;>
      simp [merge, hc, hf, h2]

/-- Witness for C9 at concrete data. -/
theorem merge_report_gt_iff_witness :
    (merge { free := ({1} : Finset Nat), constant := none }
      { free := {1}, constant := none }).2 = some Ordering.gt :=
  (merge_report_gt_iff.1 _ _).1.mpr (by decide)

/-- C3: `make` computes the free set by case on the node kind: a
variable contributes itself; `Let` excludes the binder only from the
body's contribution and keeps the bound expression's free set whole;
`Lam` and `Fix` remove the binder from the body's free set; every other
kind takes the union of its children's free sets. -/
theorem make_free_sets (data : Id → Data) :
    (∀ v, (make data (Lambda.Var v)).free = {v}) ∧
    (∀ v a b, (make data (Lambda.Let v a b)).free =
      ((data b).free \ {v}) ∪ (data a).free) ∧
    (∀ v a, (make data (Lambda.Lam v a)).free = (data a).free \ {v}) ∧
    (∀ v a, (make data (Lambda.Fix v a)).free = (data a).free \ {v}) ∧
    (∀ a b, (make data (Lambda.Add a b)).free =
      (data a).free ∪ (data b).free) ∧
    (∀ a b, (make data (Lambda.Eq a b)).free =
      (data a).free ∪ (data b).free) ∧
    (∀ a b, (make data (Lambda.App a b)).free =
      (data a).free ∪ (data b).free) ∧
    (∀ c t e, (make data (Lambda.If c t e)).free =
      (data c).free ∪ (data t).free ∪ (data e).free) ∧
    (∀ b, (make data (Lambda.Bool b)).free = ∅) ∧
    (∀ n, (make data (Lambda.Num n)).free = ∅) ∧
    (∀ s, (make data (Lambda.Symbol s)).free = ∅) := by
  refine ⟨fun v => rfl, ?_, ?_, ?_, ?_, ?_, ?_, ?_, fun b => rfl,
    fun n => rfl, fun s => rfl⟩ <;>
    intros <;> simp [make, Lambda.children, Finset.erase_eq]

/-- Helper: when the exact sum fits in the `i32` range, the wrapped sum
is the exact sum. -/
theorem i32Add_exact_of_range (a b : Int) (h1 : -(2 ^ 31) ≤ a + b)
    (h2 : a + b < 2 ^ 31) : i32Add a b = a + b := by
  unfold i32Add wrap32
  norm_num at h1 h2 ⊢
  omega

/-- Helper: inverting `Option.bind Lambda.num`. -/
theorem bind_num_inv (o : Option Lambda) (n : Int)
    (h : o.bind Lambda.num = some n) : o = some (Lambda.Num n) := by
  rcases o with _ | c
  · simp at h
  · rcases c <;> simp_all [Lambda.num]

/-- C4 (amended): the constant evaluator folds literals to themselves,
folds `Add` exactly when both children report a `Num` constant (to the
`i32` sum — the exact sum whenever it fits in the `i32` range), folds
`Eq` exactly when both children report some constant (to value
equality of the two constants), and yields no constant for every other
node kind. -/
theorem eval_constant_folding (x : Id → Option Lambda) :
    (∀ n, eval x (Lambda.Num n) = some (Lambda.Num n)) ∧
    (∀ b, eval x (Lambda.Bool b) = some (Lambda.Bool b)) ∧
    (∀ a b na nb, x a = some (Lambda.Num na) → x b = some (Lambda.Num nb) →
      eval x (Lambda.Add a b) = some (Lambda.Num (i32Add na nb))) ∧
    (∀ a b na nb, x a = some (Lambda.Num na) → x b = some (Lambda.Num nb) →
      -(2 ^ 31) ≤ na + nb → na + nb < 2 ^ 31 →
      eval x (Lambda.Add a b) = some (Lambda.Num (na + nb))) ∧
    (∀ a b r, eval x (Lambda.Add a b) = some r →
      ∃ na nb, x a = some (Lambda.Num na) ∧ x b = some (Lambda.Num nb) ∧
        r = Lambda.Num (i32Add na nb)) ∧
    (∀ a b ca cb, x a = some ca → x b = some cb →
      eval x (Lambda.Eq a b) = some (Lambda.Bool (decide (ca = cb)))) ∧
    (∀ a b r, eval x (Lambda.Eq a b) = some r →
      ∃ ca cb, x a = some ca ∧ x b = some cb ∧
        r = Lambda.Bool (decide (ca = cb))) ∧
    (∀ v, eval x (Lambda.Var v) = none) ∧
    (∀ a b, eval x (Lambda.App a b) = none) ∧
    (∀ v a, eval x (Lambda.Lam v a) = none) ∧
    (∀ v a b, eval x (Lambda.Let v a b) = none) ∧
    (∀ v a, eval x (Lambda.Fix v a) = none) ∧
    (∀ c t e, eval x (Lambda.If c t e) = none) ∧
    (∀ s, eval x (Lambda.Symbol s) = none) := by
  refine ⟨fun n => rfl, fun b => rfl, ?_, ?_, ?_, ?_, ?_, fun v => rfl,
    fun a b => rfl, fun v a => rfl, fun v a b => rfl, fun v a => rfl,
    fun c t e => rfl, fun s => rfl⟩
  · intro a b na nb ha hb
    simp [eval, ha, hb, Lambda.num]
  · intro a b na nb ha hb h1 h2
    rw [show eval x (Lambda.Add a b) = some (Lambda.Num (i32Add na nb)) by
      simp [eval, ha, hb, Lambda.num]]
    rw [i32Add_exact_of_range na nb h1 h2]
  · intro a b r h
    rcases hna : (x a).bind Lambda.num with _ | na <;>
      rcases hnb : (x b).bind Lambda.num with _ | nb <;>
        simp [eval, hna, hnb] at h
    exact ⟨na, nb, bind_num_inv _ _ hna, bind_num_inv _ _ hnb, h.symm⟩
  · intro a b ca cb ha hb
    simp [eval, ha, hb]
  · intro a b r h
    rcases hxa : x a with _ | ca <;> rcases hxb : x b with _ | cb <;>
      simp [eval, hxa, hxb] at h
    exact ⟨ca, cb, rfl, rfl, h.symm⟩

/-- Witness for C4's amended theorem at concrete inputs. -/
theorem eval_constant_folding_witness :
    eval (fun _ => some (Lambda.Num 2)) (Lambda.Add 0 1) =
      some (Lambda.Num 4) ∧
    eval (fun _ => some (Lambda.Num 3)) (Lambda.Eq 0 1) =
      some (Lambda.Bool true) := by
  constructor
  · have h := (eval_constant_folding (fun _ => some (Lambda.Num 2))).2.2.2.1
      0 1 2 2 rfl rfl (by norm_num) (by norm_num)
    rw [h]
    norm_num
  · have h := (eval_constant_folding (fun _ => some (Lambda.Num 3))).2.2.2.2.2.1
      0 1 (Lambda.Num 3) (Lambda.Num 3) rfl rfl
    rw [h]
    decide

/-- The constant lookup exhibiting `i32` overflow: class 0 holds the
largest `i32`, every other class holds 1. -/
def overflowConstants : Id → Option Lambda := fun i =>
  if i = 0 then some (Lambda.Num 2147483647) else some (Lambda.Num 1)

/-- Counterexample to C4 as stated: a node built purely from literals
and `Add` whose folded constant is not the mathematically correct sum —
`Add` of `2147483647` and `1` folds to `-2147483648`, the wrapped
value. -/
theorem eval_add_overflow_counterexample :
    eval overflowConstants (Lambda.Add 0 1) =
      some (Lambda.Num (-2147483648)) ∧
    eval overflowConstants (Lambda.Add 0 1) ≠
      some (Lambda.Num (2147483647 + 1)) := by
  constructor
  · decide
  · decide

/-- C10: constant folding of `Add` is Rust `i32` addition: when both
children report `Num` constants the folded value is the two's-complement
wrap of the exact sum — equal to the exact sum exactly when it lies in
the `i32` range, congruent to it modulo `2 ^ 32`, and different from it
whenever the exact sum overflows. -/
theorem eval_add_i32_wrapping :
    (∀ x a b na nb, x a = some (Lambda.Num na) → x b = some (Lambda.Num nb) →
      eval x (Lambda.Add a b) = some (Lambda.Num (i32Add na nb))) ∧
    (∀ na nb : Int, -(2 ^ 31) ≤ na + nb → na + nb < 2 ^ 31 →
      i32Add na nb = na + nb) ∧
    (∀ na nb : Int, -(2 ^ 31) ≤ i32Add na nb ∧ i32Add na nb < 2 ^ 31) ∧
    (∀ na nb : Int, Int.ModEq (2 ^ 32) (i32Add na nb) (na + nb)) ∧
    (∀ na nb : Int, (na + nb < -(2 ^ 31) ∨ 2 ^ 31 ≤ na + nb) →
      i32Add na nb ≠ na + nb) := by
  refine ⟨?_, fun na nb h1 h2 => i32Add_exact_of_range na nb h1 h2,
    ?_, ?_, ?_⟩
  · intro x a b na nb ha hb
    simp [eval, ha, hb, Lambda.num]
  · intro na nb
    unfold i32Add wrap32
    constructor <;> · norm_num; omega
  · intro na nb
    show i32Add na nb % 2 ^ 32 = (na + nb) % 2 ^ 32
    unfold i32Add wrap32
    norm_num
    omega
  · intro na nb h
    unfold i32Add wrap32
    norm_num at h ⊢
    omega

/-- Witness for C10 at concrete inputs. -/
theorem eval_add_i32_wrapping_witness : i32Add 2 2 = 2 + 2 :=
  eval_add_i32_wrapping.2.1 2 2 (by norm_num) (by norm_num)

/-- C6: the post-merge hook `modify` inserts the class's known constant
as a node (reusing an interned one when present) and unions that node's
class with the class; with no known constant it performs no graph
mutation at all. -/
theorem modify_post_merge :
    (∀ constOf s i, constOf i = none → modify constOf s i = s) ∧
    (∀ constOf s i c, constOf i = some c →
      modify constOf s i = unionClasses (addNode s c).2 i (addNode s c).1) ∧
    (∀ s n p, s.memo.find? (fun q => decide (q.1 = n)) = some p →
      addNode s n = (p.2, s)) ∧
    (∀ s n, s.memo.find? (fun q => decide (q.1 = n)) = none →
      addNode s n = (s.next,
        { memo := s.memo ++ [(n, s.next)], next := s.next + 1,
          unions := s.unions })) ∧
    (∀ s a b, (unionClasses s a b).memo = s.memo ∧
      (unionClasses s a b).next = s.next ∧
      (unionClasses s a b).unions = s.unions ++ [(a, b)]) := by
  refine ⟨?_, ?_, ?_, ?_, fun s a b => ⟨rfl, rfl, rfl⟩⟩
  · intro constOf s i h
    simp [modify, h]
  · intro constOf s i c h
    simp [modify, h]
  · intro s n p h
    simp [addNode, h]
  · intro s n h
    simp [addNode, h]

/-- Witness for C6 at concrete states. -/
theorem modify_post_merge_witness :
    modify (fun _ => none) { memo := [], next := 0, unions := [] } 4 =
      { memo := [], next := 0, unions := [] } ∧
    modify (fun _ => some (Lambda.Num 5))
        { memo := [], next := 0, unions := [] } 4 =
      { memo := [(Lambda.Num 5, 0)], next := 1, unions := [(4, 0)] } := by
  constructor
  · exact modify_post_merge.1 (fun _ => none) _ 4 rfl
  · rw [modify_post_merge.2.1 (fun _ => some (Lambda.Num 5)) _ 4
      (Lambda.Num 5) rfl]
    decide

/-- C7: the `if-elim` rule rewrites `If(Eq(Var x, e), then, else)` to
`else` and is guarded by `ConditionEqual` on `Let(x,e,then)` and
`Let(x,e,else)`, which holds exactly when both instantiated terms
resolve to classes already known equal in the current graph. -/
theorem if_elim_rule :
    (rules.find? (fun r => r.name == "if-elim") = some
      { name := "if-elim",
        lhs := Pat.If (Pat.Eq (Pat.Var (pv "?x")) (pv "?e"))
          (pv "?then") (pv "?else"),
        applier := RuleApplier.pat (pv "?else"),
        conds := [Cond.conditionEqual
          (Pat.Let (pv "?x") (pv "?e") (pv "?then"))
          (Pat.Let (pv "?x") (pv "?e") (pv "?else"))] }) ∧
    (∀ (find : Id → Id) (constOf : Id → Option Lambda)
      (classOf : GTerm → Option Id) (σ : String → Option Id) (p1 p2 : Pat),
      condHolds find constOf classOf σ (Cond.conditionEqual p1 p2) = true ↔
        ∃ a b, (instPat σ p1).bind classOf = some a ∧
          (instPat σ p2).bind classOf = some b ∧ find a = find b) := by
  constructor
  · decide
  · intro find constOf classOf σ p1 p2
    simp only [condHolds, conditionEqualHolds]
    rcases h1 : (instPat σ p1).bind classOf with _ | a <;>
      rcases h2 : (instPat σ p2).bind classOf with _ | b <;> simp

/-- Witness for C7: the condition holds for a graph in which both
lookups resolve to class 0. -/
theorem if_elim_rule_witness :
    condHolds (fun i => i) (fun _ => none) (fun _ => some 0)
      (fun _ => some 0) (Cond.conditionEqual (pv "?a") (pv "?b")) = true :=
  (if_elim_rule.2 (fun i => i) (fun _ => none) (fun _ => some 0)
    (fun _ => some 0) (pv "?a") (pv "?b")).mpr ⟨0, 0, rfl, rfl, rfl⟩

/-- C2: the `let-lam-diff` rule fires only when `?v1` and `?v2` resolve
to different canonical classes, and its capture-avoiding applier
branches on whether `?v2` is in the free set of `?e`'s class: if not it
emits `Abs(v2, Let(v1,e,body))`; if so it mints the fresh symbol
derived from the target class identifier and emits
`Abs(fresh, Let(v1,e, Let(v2, Var(fresh), body)))`. -/
theorem capture_avoid_two_way_branch :
    (rules.find? (fun r => r.name == "let-lam-diff") = some
      { name := "let-lam-diff",
        lhs := Pat.Let (pv "?v1") (pv "?e") (Pat.Lam (pv "?v2") (pv "?body")),
        applier := RuleApplier.captureAvoid letLamDiffCA,
        conds := [Cond.isNotSameVar "?v1" "?v2"] }) ∧
    (∀ (find : Id → Id) (constOf : Id → Option Lambda)
      (classOf : GTerm → Option Id) (σ : String → Option Id) (a b : Id),
      σ "?v1" = some a → σ "?v2" = some b →
      (condHolds find constOf classOf σ (Cond.isNotSameVar "?v1" "?v2") = true ↔
        find a ≠ find b)) ∧
    (∀ (freeOf : Id → Finset Id) (add : Lambda → Id) (eclass : Id)
      (σ : String → Option Id) (v1 e v2 body : Id),
      σ "?v1" = some v1 → σ "?e" = some e → σ "?v2" = some v2 →
      σ "?body" = some body →
      (v2 ∉ freeOf e →
        letLamDiffCA.apply_one freeOf add eclass σ =
          some (GTerm.Lam (GTerm.cls v2)
            (GTerm.Let (GTerm.cls v1) (GTerm.cls e) (GTerm.cls body)))) ∧
      (v2 ∈ freeOf e →
        letLamDiffCA.apply_one freeOf add eclass σ =
          some (GTerm.Lam
            (GTerm.cls (add (Lambda.Symbol (freshSymbolName eclass))))
            (GTerm.Let (GTerm.cls v1) (GTerm.cls e)
              (GTerm.Let (GTerm.cls v2)
                (GTerm.Var
                  (GTerm.cls (add (Lambda.Symbol (freshSymbolName eclass)))))
                (GTerm.cls body)))))) := by
  refine ⟨by decide, ?_, ?_⟩
  · intro find constOf classOf σ a b ha hb
    simp [condHolds, is_not_same_var, ha, hb]
  · intro freeOf add eclass σ v1 e v2 body h1 h2 h3 h4
    constructor
    · intro hfree
      simp [CaptureAvoid.apply_one, letLamDiffCA, h1, h2, h3, h4, hfree,
        instPat]
    · intro hfree
      simp [CaptureAvoid.apply_one, letLamDiffCA, h1, h2, h3, h4, hfree,
        instPat]

/-- The concrete substitution used by C2's witness. -/
def caSubst : String → Option Id := fun v =>
  if v = "?v1" then some 10 else if v = "?e" then some 11
  else if v = "?v2" then some 12 else if v = "?body" then some 13 else none

/-- Witness for C2 at a concrete match with no capture hazard. -/
theorem capture_avoid_two_way_branch_witness :
    letLamDiffCA.apply_one (fun _ => ∅) (fun _ => 99) 5 caSubst =
      some (GTerm.Lam (GTerm.cls 12)
        (GTerm.Let (GTerm.cls 10) (GTerm.cls 11) (GTerm.cls 13))) :=
  (capture_avoid_two_way_branch.2.2 (fun _ => ∅) (fun _ => 99) 5 caSubst
    10 11 12 13 (by decide) (by decide) (by decide) (by decide)).1 (by decide)

/-- Helper: the minted fresh name always starts with an underscore. -/
theorem freshSymbolName_head (eclass : Id) :
    (freshSymbolName eclass).data.head? = some '_' := rfl

/-- C8: fresh-name generation is deterministic — the minted symbol is a
pure function of the target class identifier alone — and the minted
name is distinct from every program-source variable of the two
benchmark seed programs. -/
theorem fresh_name_deterministic_and_collision_free :
    (∀ eclass : Id, freshSymbolName eclass = "_" ++ Nat.repr eclass) ∧
    (∀ c1 c2 : Id, c1 = c2 → freshSymbolName c1 = freshSymbolName c2) ∧
    (∀ eclass s, s ∈ benchSymbols → freshSymbolName eclass ≠ s) := by
  refine ⟨fun eclass => rfl, fun c1 c2 h => h ▸ rfl, ?_⟩
  intro eclass s hs he
  have hhead := freshSymbolName_head eclass
  rw [he] at hhead
  have hall : benchSymbols.all (fun t => decide (t.data.head? ≠ some '_')) =
      true := by decide
  exact of_decide_eq_true (List.all_eq_true.mp hall s hs) hhead

/-- Witness for C8: the fresh name for class 3 differs from the seed
variable `compose`. -/
theorem fresh_name_witness : freshSymbolName 3 ≠ "compose" :=
  fresh_name_deterministic_and_collision_free.2.2 3 "compose" (by decide)

end LambdaBench
